import Mathlib

/-!
Verification of the rinzler web-reconnaissance tool against its
natural-language specification.

The development shallowly embeds the relevant parts of the Rust sources:

* `rinzler-core/src/fuzz.rs` — URL construction (`build_test_url`,
  `extract_base_url`), the initial fuzz work-order construction and the
  fuzz worker loop;
* `rinzler-scanner/src/crawler.rs` — the crawler worker loop
  (`Crawler::crawl`) as a scheduler-parameterised transition system;
* `rinzler-core/src/crawl.rs` — `execute_crawl` and the `Prompt`
  cross-domain admission callback;
* `rinzler-core/src/security.rs` — the passive finding analyzers;
* `rinzler-core/src/data.rs` — `Database::insert_node`.

Strings are modelled as `List Char` (`Str`).  URL parsing and
serialisation (the external `url` crate) are modelled by `parseUrl` /
`MUrl.toStr` on the fragment of the URL grammar the repository
exercises: `scheme://host[:port]path[?query][#fragment]`, with the
crate's normalisations that matter here (missing path becomes `/`,
default ports are dropped).  Concurrency is modelled by letting an
arbitrary scheduler pick which worker performs its (lock-protected)
loop body next; every lock-protected compound operation of the source
is one atomic step of the model.
-/

namespace Rinzler

/-- Strings of the model: lists of characters. -/
abbrev Str := List Char

/-! ## Generic list helpers used by the URL parser proofs -/

theorem takeWhile_all {α : Type} (p : α → Bool) :
    ∀ l : List α, (∀ a ∈ l, p a = true) → l.takeWhile p = l := by
  intro l
  induction l with
  | nil => intro _; rfl
  | cons a t ih =>
    intro h
    have ha := h a (List.mem_cons_self a t)
    simp only [List.takeWhile_cons, ha, if_true]
    rw [ih fun x hx => h x (List.mem_cons_of_mem a hx)]

theorem dropWhile_all {α : Type} (p : α → Bool) :
    ∀ l : List α, (∀ a ∈ l, p a = true) → l.dropWhile p = [] := by
  intro l
  induction l with
  | nil => intro _; rfl
  | cons a t ih =>
    intro h
    have ha := h a (List.mem_cons_self a t)
    simp only [List.dropWhile_cons, ha, if_true]
    exact ih fun x hx => h x (List.mem_cons_of_mem a hx)

theorem takeWhile_app_stop {α : Type} (p : α → Bool) :
    ∀ (l : List α) (c : α) (r : List α), (∀ a ∈ l, p a = true) → p c = false →
      (l ++ c :: r).takeWhile p = l := by
  intro l
  induction l with
  | nil =>
    intro c r _ hc
    simp [List.takeWhile_cons, hc]
  | cons a t ih =>
    intro c r h hc
    have ha := h a (List.mem_cons_self a t)
    simp only [List.cons_append, List.takeWhile_cons, ha, if_true]
    rw [ih c r (fun x hx => h x (List.mem_cons_of_mem a hx)) hc]

theorem dropWhile_app_stop {α : Type} (p : α → Bool) :
    ∀ (l : List α) (c : α) (r : List α), (∀ a ∈ l, p a = true) → p c = false →
      (l ++ c :: r).dropWhile p = c :: r := by
  intro l
  induction l with
  | nil =>
    intro c r _ hc
    simp [List.dropWhile_cons, hc]
  | cons a t ih =>
    intro c r h hc
    have ha := h a (List.mem_cons_self a t)
    simp only [List.cons_append, List.dropWhile_cons, ha, if_true]
    exact ih c r (fun x hx => h x (List.mem_cons_of_mem a hx)) hc

theorem mem_takeWhile {α : Type} (p : α → Bool) :
    ∀ (l : List α) (a : α), a ∈ l.takeWhile p → p a = true ∧ a ∈ l := by
  intro l
  induction l with
  | nil => intro a h; simp [List.takeWhile] at h
  | cons b t ih =>
    intro a h
    by_cases hb : p b = true
    · simp only [List.takeWhile_cons, hb, if_true] at h
      rcases List.mem_cons.mp h with h1 | h2
      · subst h1; exact ⟨hb, List.mem_cons_self a t⟩
      · have := ih a h2
        exact ⟨this.1, List.mem_cons_of_mem b this.2⟩
    · simp only [List.takeWhile_cons] at h
      rw [eq_false_of_ne_true hb] at h
      simp at h

theorem dropWhile_head_false {α : Type} (p : α → Bool) :
    ∀ (l : List α) (c : α) (r : List α), l.dropWhile p = c :: r → p c = false := by
  intro l
  induction l with
  | nil => intro c r h; simp [List.dropWhile] at h
  | cons b t ih =>
    intro c r h
    by_cases hb : p b = true
    · simp only [List.dropWhile_cons, hb, if_true] at h
      exact ih c r h
    · simp only [List.dropWhile_cons] at h
      rw [eq_false_of_ne_true hb] at h
      simp at h
      rw [← h.1]
      exact eq_false_of_ne_true hb

theorem takeWhile_head {α : Type} (p : α → Bool) :
    ∀ (l : List α) (c : α) (r : List α), l.takeWhile p = c :: r →
      ∃ t, l = c :: t := by
  intro l
  induction l with
  | nil => intro c r h; simp [List.takeWhile] at h
  | cons b t _ =>
    intro c r h
    by_cases hb : p b = true
    · simp only [List.takeWhile_cons, hb, if_true, List.cons.injEq] at h
      exact ⟨t, by rw [h.1]⟩
    · simp only [List.takeWhile_cons] at h
      rw [eq_false_of_ne_true hb] at h
      simp at h

/-! ## Decimal digits

`digitsVal` is how the model reads a port number out of its decimal
digits; `natToChars` is how a port number is printed back (the `url`
crate stores ports numerically and prints them in canonical decimal).
-/

/-- ASCII decimal digit test (the model's counterpart of `char::is_ascii_digit`). -/
def isDigitC (c : Char) : Bool := 48 ≤ c.toNat && c.toNat ≤ 57

/-- ASCII letter test (schemes such as `http`/`https` are all-letter). -/
def isAlphaC (c : Char) : Bool :=
  (65 ≤ c.toNat && c.toNat ≤ 90) || (97 ≤ c.toNat && c.toNat ≤ 122)

/-- Numeric value of a big-endian decimal digit string. -/
def digitsVal (l : Str) : Nat := l.foldl (fun a c => 10 * a + (c.toNat - 48)) 0

/-- The decimal digit character for `d < 10` (else `'0'`). -/
def digitChar (d : Nat) : Char :=
  match d with
  | 0 => '0' | 1 => '1' | 2 => '2' | 3 => '3' | 4 => '4'
  | 5 => '5' | 6 => '6' | 7 => '7' | 8 => '8' | 9 => '9'
  | _ => '0'

/-- Big-endian decimal digits of `n`, fuel-driven so the kernel can reduce it. -/
def natToCharsAux : Nat → Nat → Str
  | 0, _ => []
  | fuel + 1, n => if n = 0 then [] else natToCharsAux fuel (n / 10) ++ [digitChar (n % 10)]

/-- Canonical decimal rendering of a natural number. -/
def natToChars (n : Nat) : Str := if n = 0 then ['0'] else natToCharsAux n n

theorem digitChar_spec (d : Nat) (h : d < 10) :
    isDigitC (digitChar d) = true ∧ (digitChar d).toNat - 48 = d := by
  interval_cases d <;> exact ⟨by decide, by decide⟩

theorem digitsVal_append (l : Str) (c : Char) :
    digitsVal (l ++ [c]) = 10 * digitsVal l + (c.toNat - 48) := by
  simp [digitsVal, List.foldl_append]

theorem natToCharsAux_val : ∀ (fuel n : Nat), n ≤ fuel →
    digitsVal (natToCharsAux fuel n) = n := by
  intro fuel
  induction fuel with
  | zero =>
    intro n hn
    have : n = 0 := Nat.le_zero.mp hn
    subst this; rfl
  | succ f ih =>
    intro n hn
    by_cases h0 : n = 0
    · subst h0; rfl
    · have hdiv : n / 10 ≤ f := by
        have h1 : n / 10 < n := Nat.div_lt_self (Nat.pos_of_ne_zero h0) (by omega)
        omega
      have hd := digitChar_spec (n % 10) (Nat.mod_lt n (by omega))
      simp only [natToCharsAux, h0, if_false]
      rw [digitsVal_append, ih (n / 10) hdiv, hd.2]
      omega

theorem natToCharsAux_digits : ∀ (fuel n : Nat) (c : Char),
    c ∈ natToCharsAux fuel n → isDigitC c = true := by
  intro fuel
  induction fuel with
  | zero => intro n c h; simp [natToCharsAux] at h
  | succ f ih =>
    intro n c h
    by_cases h0 : n = 0
    · subst h0; simp [natToCharsAux] at h
    · simp only [natToCharsAux, h0, if_false, List.mem_append] at h
      rcases h with h | h
      · exact ih (n / 10) c h
      · simp at h
        subst h
        exact (digitChar_spec (n % 10) (Nat.mod_lt n (by omega))).1

theorem natToChars_val (n : Nat) : digitsVal (natToChars n) = n := by
  by_cases h0 : n = 0
  · subst h0; rfl
  · simp only [natToChars, h0, if_false]
    exact natToCharsAux_val n n le_rfl

theorem natToChars_digits (n : Nat) (c : Char) (h : c ∈ natToChars n) :
    isDigitC c = true := by
  by_cases h0 : n = 0
  · subst h0; simp [natToChars] at h; subst h; decide
  · simp only [natToChars, h0, if_false] at h
    exact natToCharsAux_digits n n c h

theorem natToChars_ne_nil (n : Nat) : natToChars n ≠ [] := by
  by_cases h0 : n = 0
  · subst h0; simp [natToChars]
  · simp only [natToChars, h0, if_false]
    cases hfn : natToCharsAux n n with
    | nil =>
      exfalso
      have := natToCharsAux_val n n le_rfl
      rw [hfn] at this
      exact h0 (by simpa [digitsVal] using this.symm)
    | cons c t => simp

/-! ## The URL model

A model of the fragment of the `url` crate that the repository
exercises.  A parsed URL is a record of scheme, host, optional port,
path, optional query and optional fragment.  The parser accepts
`scheme://host[:port][/path][?query][#fragment]`, requires a non-empty
all-letter scheme and a non-empty host, normalises a missing path to
`/` and drops a default port (`http`/80, `https`/443), as the crate
does.  (Percent-encoding, IPv6 hosts, userinfo and case-folding are
outside the fragment the claims exercise and are not modelled.)
-/

structure MUrl where
  scheme : Str
  host : Str
  port : Option Nat
  path : Str
  query : Option Str
  fragment : Option Str
  deriving Repr, DecidableEq

/-- Default port of a scheme, as dropped by the `url` crate on serialisation. -/
def defaultPort (scheme : Str) : Option Nat :=
  if scheme = ("http".data) then some 80
  else if scheme = ("https".data) then some 443
  else none

/-- Characters that end the authority component. -/
def notDelim (c : Char) : Bool := !(c == '/' || c == '?' || c == '#')

/-- Characters that may appear in a path (anything up to `?` or `#`). -/
def notQF (c : Char) : Bool := !(c == '?' || c == '#')

/-- Port component of the authority: nothing, an empty port (dropped), or
a digit string (its value); `none` on a malformed port. -/
def rawPortOf (portPart : Str) : Option (Option Nat) :=
  match portPart with
  | [] => some none
  | _ :: ds =>
    if ds.isEmpty then some none
    else if ds.all isDigitC then some (some (digitsVal ds)) else none

/-- Query component read off the remainder that follows the path. -/
def queryOf (rest3 : Str) : Option Str :=
  match rest3 with
  | '?' :: t => some (t.takeWhile (fun c => !(c == '#')))
  | _ => none

/-- Fragment component read off the remainder that follows the path. -/
def fragmentOf (rest3 : Str) : Option Str :=
  match rest3 with
  | '?' :: t =>
    match t.dropWhile (fun c => !(c == '#')) with
    | '#' :: ft => some ft
    | _ => none
  | '#' :: ft => some ft
  | _ => none

/-- Model of `url::Url::parse` on the grammar fragment described above. -/
def parseUrl (l : Str) : Option MUrl :=
  let scheme := l.takeWhile (fun c => !(c == ':'))
  if scheme.isEmpty then none
  else if !scheme.all isAlphaC then none
  else
    match l.dropWhile (fun c => !(c == ':')) with
    | ':' :: '/' :: '/' :: rest1 =>
      let auth := rest1.takeWhile notDelim
      let rest2 := rest1.dropWhile notDelim
      let host := auth.takeWhile (fun c => !(c == ':'))
      if host.isEmpty then none
      else
        match rawPortOf (auth.dropWhile (fun c => !(c == ':'))) with
        | none => none
        | some rp =>
          let port : Option Nat :=
            match rp with
            | none => none
            | some p => if defaultPort scheme = some p then none else some p
          let path0 := rest2.takeWhile notQF
          some { scheme := scheme, host := host, port := port,
                 path := if path0.isEmpty then ['/'] else path0,
                 query := queryOf (rest2.dropWhile notQF),
                 fragment := fragmentOf (rest2.dropWhile notQF) }
    | _ => none

/-- Serialised port component. -/
def portStr : Option Nat → Str
  | none => []
  | some p => ':' :: natToChars p

/-- Serialised query component. -/
def queryStr : Option Str → Str
  | none => []
  | some q => '?' :: q

/-- Serialised fragment component. -/
def fragStr : Option Str → Str
  | none => []
  | some f => '#' :: f

/-- Model of `url::Url::to_string` on the same fragment. -/
def MUrl.toStr (u : MUrl) : Str :=
  u.scheme ++ ':' :: '/' :: '/' ::
    (u.host ++ portStr u.port ++ u.path ++ queryStr u.query ++ fragStr u.fragment)

/-- Well-formedness produced by the parser and preserved by the
operations of the repository: exactly the conditions under which
serialisation round-trips. -/
def MUrl.WF (u : MUrl) : Prop :=
  (¬ u.scheme = []) ∧ (∀ c ∈ u.scheme, isAlphaC c = true) ∧
  (¬ u.host = []) ∧ (∀ c ∈ u.host, (!(c == ':' || c == '/' || c == '?' || c == '#')) = true) ∧
  (∀ p, u.port = some p → ¬ defaultPort u.scheme = some p) ∧
  (u.path.head? = some '/') ∧ (∀ c ∈ u.path, notQF c = true) ∧
  (∀ q, u.query = some q → ∀ c ∈ q, (!(c == '#')) = true)

/-! ### Character-class lemmas -/

theorem isAlphaC_ne_colon (c : Char) (h : isAlphaC c = true) : (!(c == ':')) = true := by
  by_cases hc : c = ':'
  · subst hc; exact absurd h (by decide)
  · simp [hc]

theorem isDigitC_notDelim (c : Char) (h : isDigitC c = true) : notDelim c = true := by
  by_cases h1 : c = '/'
  · subst h1; exact absurd h (by decide)
  · by_cases h2 : c = '?'
    · subst h2; exact absurd h (by decide)
    · by_cases h3 : c = '#'
      · subst h3; exact absurd h (by decide)
      · simp [notDelim, h1, h2, h3]

theorem hostChar_notDelim (c : Char)
    (h : (!(c == ':' || c == '/' || c == '?' || c == '#')) = true) : notDelim c = true := by
  simp only [Bool.not_eq_true', Bool.or_eq_false_iff] at h
  simp only [notDelim, Bool.not_eq_true', Bool.or_eq_false_iff]
  exact ⟨⟨h.1.1.2, h.1.2⟩, h.2⟩

theorem hostChar_ne_colon (c : Char)
    (h : (!(c == ':' || c == '/' || c == '?' || c == '#')) = true) : (!(c == ':')) = true := by
  simp only [Bool.not_eq_true', Bool.or_eq_false_iff] at h
  simp [h.1.1.1]

theorem hostChar_intro (c : Char) (h1 : (!(c == ':')) = true) (h2 : notDelim c = true) :
    (!(c == ':' || c == '/' || c == '?' || c == '#')) = true := by
  simp only [Bool.not_eq_true', beq_eq_false_iff_ne, ne_eq] at h1
  simp only [notDelim, Bool.not_eq_true', Bool.or_eq_false_iff] at h2
  simp only [Bool.not_eq_true', Bool.or_eq_false_iff]
  exact ⟨⟨⟨by simpa using h1, h2.1.1⟩, h2.1.2⟩, h2.2⟩

theorem delim_not_qf (c : Char) (h1 : notDelim c = false) (h2 : notQF c = true) : c = '/' := by
  simp only [notDelim, Bool.not_eq_false', Bool.or_eq_true, beq_iff_eq] at h1
  simp only [notQF, Bool.not_eq_true', Bool.or_eq_false_iff, beq_eq_false_iff_ne, ne_eq] at h2
  rcases h1 with (h | h) | h
  · exact h
  · exact absurd h h2.1
  · exact absurd h h2.2

/-! ### Parse/serialise round-trip -/

theorem queryOf_chars (r : Str) (qv : Str) (h : queryOf r = some qv) :
    ∀ c ∈ qv, (!(c == '#')) = true := by
  unfold queryOf at h
  split at h
  · injection h with h
    subst h
    intro c hc
    exact (mem_takeWhile _ _ c hc).1
  · exact absurd h (by simp)

theorem queryOf_ser (q f : Option Str)
    (hq : ∀ qv, q = some qv → ∀ c ∈ qv, (!(c == '#')) = true) :
    queryOf (queryStr q ++ fragStr f) = q := by
  cases q with
  | none =>
    cases f with
    | none => rfl
    | some fv => rfl
  | some qv =>
    have hqAll := hq qv rfl
    cases f with
    | some fv =>
      show queryOf ('?' :: (qv ++ '#' :: fv)) = some qv
      simp only [queryOf]
      rw [takeWhile_app_stop _ qv '#' fv hqAll (by decide)]
    | none =>
      show queryOf ('?' :: (qv ++ [])) = some qv
      simp only [queryOf]
      rw [List.append_nil, takeWhile_all _ qv hqAll]

theorem fragmentOf_ser (q f : Option Str)
    (hq : ∀ qv, q = some qv → ∀ c ∈ qv, (!(c == '#')) = true) :
    fragmentOf (queryStr q ++ fragStr f) = f := by
  cases q with
  | none =>
    cases f with
    | none => rfl
    | some fv => rfl
  | some qv =>
    have hqAll := hq qv rfl
    cases f with
    | some fv =>
      show fragmentOf ('?' :: (qv ++ '#' :: fv)) = some fv
      simp only [fragmentOf]
      rw [dropWhile_app_stop _ qv '#' fv hqAll (by decide)]
      rfl
    | none =>
      show fragmentOf ('?' :: (qv ++ [])) = none
      simp only [fragmentOf]
      rw [List.append_nil, dropWhile_all _ qv hqAll]

/-- Serialising a well-formed URL and parsing it back is the identity. -/
theorem parse_toStr (u : MUrl) (h : u.WF) : parseUrl u.toStr = some u := by
  obtain ⟨s, ho, po, pa, q, f⟩ := u
  obtain ⟨h1, h2, h3, h4, h5, h6, h7, h8⟩ := h
  simp only at h1 h2 h3 h4 h5 h6 h7 h8
  obtain ⟨pt, hpt⟩ : ∃ pt, pa = '/' :: pt := by
    cases pa with
    | nil => simp at h6
    | cons c t =>
      simp only [List.head?_cons, Option.some.injEq] at h6
      exact ⟨t, by rw [h6]⟩
  subst hpt
  have hsch : ∀ c ∈ s, (fun c => !(c == ':')) c = true :=
    fun c hc => isAlphaC_ne_colon c (h2 c hc)
  have hTW : (MUrl.toStr ⟨s, ho, po, '/' :: pt, q, f⟩).takeWhile (fun c => !(c == ':')) = s :=
    takeWhile_app_stop _ s ':' _ hsch (by decide)
  have hDW : (MUrl.toStr ⟨s, ho, po, '/' :: pt, q, f⟩).dropWhile (fun c => !(c == ':')) =
      ':' :: '/' :: '/' :: (ho ++ portStr po ++ ('/' :: pt) ++ queryStr q ++ fragStr f) :=
    dropWhile_app_stop _ s ':' _ hsch (by decide)
  have hauthAll : ∀ c ∈ ho ++ portStr po, notDelim c = true := by
    intro c hc
    rcases List.mem_append.mp hc with hc | hc
    · exact hostChar_notDelim c (h4 c hc)
    · cases po with
      | none => simp [portStr] at hc
      | some p =>
        simp only [portStr, List.mem_cons] at hc
        rcases hc with hc | hc
        · subst hc; decide
        · exact isDigitC_notDelim c (natToChars_digits p c hc)
  have hassoc : ho ++ portStr po ++ ('/' :: pt) ++ queryStr q ++ fragStr f =
      (ho ++ portStr po) ++ '/' :: (pt ++ queryStr q ++ fragStr f) := by
    simp [List.append_assoc]
  have hAuthTW : (ho ++ portStr po ++ ('/' :: pt) ++ queryStr q ++ fragStr f).takeWhile notDelim =
      ho ++ portStr po := by
    rw [hassoc]; exact takeWhile_app_stop _ _ '/' _ hauthAll (by decide)
  have hAuthDW : (ho ++ portStr po ++ ('/' :: pt) ++ queryStr q ++ fragStr f).dropWhile notDelim =
      ('/' :: pt) ++ queryStr q ++ fragStr f := by
    rw [hassoc]
    rw [dropWhile_app_stop _ _ '/' _ hauthAll (by decide)]
    simp [List.append_assoc]
  have hhostAll : ∀ c ∈ ho, (fun c => !(c == ':')) c = true :=
    fun c hc => hostChar_ne_colon c (h4 c hc)
  have hHostTW : (ho ++ portStr po).takeWhile (fun c => !(c == ':')) = ho := by
    cases po with
    | none => simpa [portStr] using takeWhile_all _ ho hhostAll
    | some p => exact takeWhile_app_stop _ ho ':' _ hhostAll (by decide)
  have hHostDW : (ho ++ portStr po).dropWhile (fun c => !(c == ':')) = portStr po := by
    cases po with
    | none => simpa [portStr] using dropWhile_all _ ho hhostAll
    | some p => exact dropWhile_app_stop _ ho ':' _ hhostAll (by decide)
  have hpathAll : ∀ c ∈ '/' :: pt, notQF c = true := h7
  have hPathTW : (('/' :: pt) ++ queryStr q ++ fragStr f).takeWhile notQF = '/' :: pt := by
    cases q with
    | some qv =>
      have hre : ('/' :: pt) ++ queryStr (some qv) ++ fragStr f =
          ('/' :: pt) ++ '?' :: (qv ++ fragStr f) := by
        simp [queryStr, List.append_assoc]
      rw [hre]
      exact takeWhile_app_stop _ _ '?' _ hpathAll (by decide)
    | none =>
      cases f with
      | some fv =>
        have hre : ('/' :: pt) ++ queryStr none ++ fragStr (some fv) =
            ('/' :: pt) ++ '#' :: fv := by
          simp [queryStr, fragStr]
        rw [hre]
        exact takeWhile_app_stop _ _ '#' _ hpathAll (by decide)
      | none =>
        have hre : ('/' :: pt) ++ queryStr none ++ fragStr none = '/' :: pt := by
          simp [queryStr, fragStr]
        rw [hre]
        exact takeWhile_all _ _ hpathAll
  have hPathDW : (('/' :: pt) ++ queryStr q ++ fragStr f).dropWhile notQF =
      queryStr q ++ fragStr f := by
    cases q with
    | some qv =>
      have hre : ('/' :: pt) ++ queryStr (some qv) ++ fragStr f =
          ('/' :: pt) ++ '?' :: (qv ++ fragStr f) := by
        simp [queryStr, List.append_assoc]
      rw [hre]
      rw [dropWhile_app_stop _ _ '?' _ hpathAll (by decide)]
      simp [queryStr]
    | none =>
      cases f with
      | some fv =>
        have hre : ('/' :: pt) ++ queryStr none ++ fragStr (some fv) =
            ('/' :: pt) ++ '#' :: fv := by
          simp [queryStr, fragStr]
        rw [hre]
        rw [dropWhile_app_stop _ _ '#' _ hpathAll (by decide)]
        simp [queryStr, fragStr]
      | none =>
        have hre : ('/' :: pt) ++ queryStr none ++ fragStr none = '/' :: pt := by
          simp [queryStr, fragStr]
        rw [hre]
        rw [dropWhile_all _ _ hpathAll]
        simp [queryStr, fragStr]
  simp only [parseUrl, hTW, hDW]
  have hsne : s.isEmpty = false := by cases s with | nil => exact absurd rfl h1 | cons a t => rfl
  have hsall : s.all isAlphaC = true := List.all_eq_true.mpr h2
  simp only [hsne, hsall, Bool.not_true, if_false, Bool.false_eq_true]
  simp only [hAuthTW, hAuthDW, hHostTW, hHostDW]
  have hhne : ho.isEmpty = false := by cases ho with | nil => exact absurd rfl h3 | cons a t => rfl
  simp only [hhne, Bool.false_eq_true, if_false]
  cases po with
  | none =>
    simp only [portStr, rawPortOf]
    simp only [hPathTW, hPathDW, List.isEmpty_cons, Bool.false_eq_true, if_false]
    rw [queryOf_ser q f h8, fragmentOf_ser q f h8]
  | some p =>
    simp only [portStr, rawPortOf]
    have hdne : (natToChars p).isEmpty = false := by
      cases hnc : natToChars p with
      | nil => exact absurd hnc (natToChars_ne_nil p)
      | cons a t => rfl
    have hdall : (natToChars p).all isDigitC = true :=
      List.all_eq_true.mpr (natToChars_digits p)
    have hdval : digitsVal (natToChars p) = p := natToChars_val p
    simp only [hdne, hdall, Bool.false_eq_true, if_false, if_true, hdval]
    have hdef : (defaultPort s = some p) = False := by
      simp only [eq_iff_iff, iff_false]
      exact h5 p rfl
    simp only [hdef, if_false]
    simp only [hPathTW, hPathDW, List.isEmpty_cons, Bool.false_eq_true, if_false]
    rw [queryOf_ser q f h8, fragmentOf_ser q f h8]

/-- The parser only produces well-formed URLs. -/
theorem parse_WF (l : Str) (u : MUrl) (h : parseUrl l = some u) : u.WF := by
  simp only [parseUrl] at h
  split at h
  · exact absurd h (by simp)
  · split at h
    · exact absurd h (by simp)
    · rename_i hne hal
      split at h
      · rename_i rest1 heq
        split at h
        · exact absurd h (by simp)
        · rename_i hhost
          split at h
          · exact absurd h (by simp)
          · rename_i rp hrp
            injection h with h
            subst h
            dsimp only [MUrl.WF]
            refine ⟨?_, ?_, ?_, ?_, ?_, ?_, ?_, ?_⟩
            · -- scheme non-empty
              intro hnil
              rw [hnil] at hne
              exact hne rfl
            · -- scheme all letters
              intro c hc
              have hall : (l.takeWhile fun c => !(c == ':')).all isAlphaC = true := by
                simpa using hal
              exact List.all_eq_true.mp hall c hc
            · -- host non-empty
              intro hnil
              rw [hnil] at hhost
              exact hhost rfl
            · -- host characters
              intro c hc
              have hm1 := mem_takeWhile _ _ c hc
              have hm2 := mem_takeWhile _ _ c hm1.2
              exact hostChar_intro c hm1.1 hm2.1
            · -- port is never a default port
              intro p hp
              cases rp with
              | none => simp at hp
              | some p0 =>
                dsimp only at hp
                split at hp
                · simp at hp
                · rename_i hdef
                  simp only [Option.some.injEq] at hp
                  subst hp
                  exact hdef
            · -- path starts with '/'
              split
              · rfl
              · rename_i hpe
                cases hp0 : (rest1.dropWhile notDelim).takeWhile notQF with
                | nil => rw [hp0] at hpe; exact absurd rfl hpe
                | cons c t =>
                  obtain ⟨t', ht'⟩ := takeWhile_head _ _ c t hp0
                  have hcnd : notDelim c = false := dropWhile_head_false _ rest1 c t' ht'
                  have hcqf : notQF c = true := by
                    have hmem : c ∈ (rest1.dropWhile notDelim).takeWhile notQF := by
                      rw [hp0]; exact List.mem_cons_self c t
                    exact (mem_takeWhile _ _ c hmem).1
                  rw [delim_not_qf c hcnd hcqf]
                  rfl
            · -- path characters
              intro c hc
              split at hc
              · simp only [List.mem_singleton] at hc
                subst hc; decide
              · exact (mem_takeWhile _ _ c hc).1
            · -- query characters
              exact fun qv hq => queryOf_chars _ qv hq
      · exact absurd h (by simp)

/-- Clearing the query and the fragment preserves well-formedness. -/
theorem clear_WF (u : MUrl) (h : u.WF) :
    MUrl.WF { u with query := none, fragment := none } := by
  obtain ⟨h1, h2, h3, h4, h5, h6, h7, _⟩ := h
  exact ⟨h1, h2, h3, h4, h5, h6, h7, by intro q hq; simp at hq⟩

/-! ## `fuzz.rs` URL construction -/

/-- Model of `fuzz.rs::build_test_url`: parse the base URL, take its
current path, make it end with `/` if it does not already, append the
wordlist entry with any leading `/` stripped, set the path, serialise. -/
def build_test_url (base_url word : Str) : Option Str :=
  match parseUrl base_url with
  | none => none
  | some url =>
    let current_path := url.path
    let path_base := if current_path.getLast? = some '/' then current_path
      else current_path ++ ['/']
    let new_path := path_base ++ word.dropWhile (fun c => c == '/')
    some (MUrl.toStr { url with path := new_path })

/-- Model of `fuzz.rs::extract_base_url`: parse, clear the query and the
fragment, serialise. -/
def extract_base_url (url : Str) : Option Str :=
  match parseUrl url with
  | none => none
  | some parsed => some (MUrl.toStr { parsed with query := none, fragment := none })

/-- The spec's own description of `build_test_url`, transcribed from its
words: parse `base`; let `p` be its path; let `pPrime = p` if `p` ends
with `/` else `p + "/"`; let `wPrime` be `word` with leading `/`
stripped; set the path to `pPrime + wPrime`; serialise. -/
def buildTestUrlSpec (base word : Str) : Option Str :=
  (parseUrl base).map fun u =>
    let p := u.path
    let pPrime := if p.getLast? = some '/' then p else p ++ ['/']
    let wPrime := word.dropWhile (fun c => c == '/')
    MUrl.toStr { u with path := pPrime ++ wPrime }

/-- C7: `build_test_url` implements exactly the algorithm the spec
describes (parse; ensure the path ends with `/`; append the word with
leading `/` stripped; serialise), and the spec's two concrete examples
compute as stated. -/
theorem build_test_url_follows_spec :
    (∀ base word, build_test_url base word = buildTestUrlSpec base word) ∧
      build_test_url "http://h:8080/api".data "v1".data =
        some "http://h:8080/api/v1".data ∧
      build_test_url "http://h/api/".data "/users".data =
        some "http://h/api/users".data := by
  refine ⟨?_, by decide, by decide⟩
  intro base word
  unfold build_test_url buildTestUrlSpec
  cases parseUrl base <;> rfl

/-- C8: `extract_base_url` is idempotent — applying it to its own output
succeeds and returns the same string. -/
theorem extract_base_url_idempotent (u b : Str) (h : extract_base_url u = some b) :
    extract_base_url b = some b := by
  unfold extract_base_url at h ⊢
  cases hp : parseUrl u with
  | none => rw [hp] at h; exact absurd h (by simp)
  | some v =>
    rw [hp] at h
    simp only [Option.some.injEq] at h
    subst h
    have hwf := clear_WF v (parse_WF u v hp)
    rw [parse_toStr _ hwf]

/-- Witness for C8 at a URL carrying both a query and a fragment. -/
theorem extract_base_url_idempotent_witness :
    extract_base_url "http://example.com/api?key=val#top".data =
        some "http://example.com/api".data ∧
      extract_base_url "http://example.com/api".data =
        some "http://example.com/api".data :=
  ⟨by decide, extract_base_url_idempotent "http://example.com/api?key=val#top".data
    "http://example.com/api".data (by decide)⟩

/-! ## Finding model (`data.rs`) and passive analyzers (`security.rs`) -/

inductive Severity
  | critical | high | medium | low | info
  deriving Repr, DecidableEq

inductive FindingType
  | vulnerability | misconfiguration | informationDisclosure | interestingFile
  | securityHeaderMissing | insecureTransport | authenticationIssue
  | authorizationIssue | injectionPoint | other
  deriving Repr, DecidableEq

/-- Model of `data.rs::Finding`. -/
structure Finding where
  node_id : Int
  finding_type : FindingType
  severity : Severity
  title : Str
  description : Str
  impact : Option Str
  remediation : Option Str
  evidence : Option Str
  cwe_id : Option Str
  owasp_category : Option Str
  deriving Repr, DecidableEq

/-- Model of `rinzler-scanner/src/result.rs::CrawlResult` (the response
duration is carried in milliseconds). -/
structure CrawlResult where
  url : Str
  status_code : Nat
  content_type : Option Str
  content_length : Option Nat
  response_time_ms : Nat
  links_found : List Str
  forms_found : Nat
  scripts_found : Nat
  error : Option Str
  deriving Repr, DecidableEq

/-- ASCII lower-casing of one character (model of `str::to_lowercase`
on the ASCII inputs the analyzers receive). -/
def lowerC (c : Char) : Char :=
  if 65 ≤ c.toNat ∧ c.toNat ≤ 90 then Char.ofNat (c.toNat + 32) else c

/-- Substring test (model of `str::contains`). -/
def strContains : Str → Str → Bool
  | [], pat => pat.isEmpty
  | c :: t, pat => pat.isPrefixOf (c :: t) || strContains t pat

/-- Model of `security.rs::check_insecure_transport`: flag an `http`
URL whose host is neither `localhost` nor in `127.*`. -/
def check_insecure_transport (result : CrawlResult) (node_id : Int) : List Finding :=
  match parseUrl result.url with
  | none => []
  | some parsed_url =>
    if parsed_url.scheme = "http".data then
      if ¬("127.".data.isPrefixOf parsed_url.host) ∧ ¬(parsed_url.host = "localhost".data) then
        [{ node_id := node_id,
           finding_type := FindingType.insecureTransport,
           severity := Severity.medium,
           title := "Insecure Transport (HTTP)".data,
           description := "The endpoint ".data ++ result.url ++
             " is served over HTTP instead of HTTPS.".data,
           impact := some ("Data transmitted over HTTP can be intercepted and read by attackers. Sensitive information like credentials, session tokens, and personal data may be exposed.".data),
           remediation := some ("Enable HTTPS for this endpoint and redirect all HTTP traffic to HTTPS.".data),
           evidence := some ("\x7b\"url\": \"".data ++ result.url ++ "\", \"scheme\": \"http\"\x7d".data),
           cwe_id := some "CWE-319".data,
           owasp_category := some "A02:2021 - Cryptographic Failures".data }]
      else []
    else []

/-- The ordered pattern table of `security.rs::check_interesting_files`:
`(pattern, title, severity, CWE)`. -/
def interesting_patterns : List (Str × Str × Severity × Str) :=
  [ (".git/".data, "Git Repository Exposed".data, Severity.high, "CWE-538".data),
    (".env".data, "Environment File Exposed".data, Severity.critical, "CWE-200".data),
    (".git/config".data, "Git Configuration Exposed".data, Severity.high, "CWE-538".data),
    ("/.aws/".data, "AWS Credentials Directory".data, Severity.critical, "CWE-200".data),
    ("/backup".data, "Backup File Accessible".data, Severity.medium, "CWE-530".data),
    (".sql".data, "SQL Dump File".data, Severity.high, "CWE-530".data),
    (".bak".data, "Backup File".data, Severity.medium, "CWE-530".data),
    ("web.config".data, "Configuration File Exposed".data, Severity.high, "CWE-215".data),
    ("phpinfo.php".data, "PHP Info Page".data, Severity.info, "CWE-200".data),
    ("/admin".data, "Admin Interface".data, Severity.info, "CWE-200".data),
    ("/api/".data, "API Endpoint".data, Severity.info, "CWE-200".data) ]

/-- Model of `security.rs::check_interesting_files`: lower-case the URL
path, report the first pattern the path contains when the status is a
2xx, and stop after the first match (the loop's `break`). -/
def check_interesting_files (result : CrawlResult) (node_id : Int) : List Finding :=
  match parseUrl result.url with
  | none => []
  | some parsed_url =>
    let path := parsed_url.path.map lowerC
    match interesting_patterns.find? (fun pq =>
        strContains path pq.1 && decide (200 ≤ result.status_code) &&
          decide (result.status_code < 300)) with
    | none => []
    | some (_, title, severity, cwe) =>
      [{ node_id := node_id,
         finding_type := FindingType.interestingFile,
         severity := severity,
         title := title,
         description := "Discovered potentially sensitive file or directory: ".data ++ result.url,
         impact := some ("This file or directory may contain sensitive information or provide attack surface.".data),
         remediation := some ("Review if this resource should be publicly accessible. Consider removing or restricting access.".data),
         evidence := some ("\x7b\"url\": \"".data ++ result.url ++ "\", \"status_code\": ".data ++
           natToChars result.status_code ++ "\x7d".data),
         cwe_id := some cwe,
         owasp_category := some "A01:2021 - Broken Access Control".data }]

/-- Model of `security.rs::check_error_messages`: flag 5xx responses. -/
def check_error_messages (result : CrawlResult) (node_id : Int) : List Finding :=
  if 500 ≤ result.status_code ∧ result.status_code < 600 then
    [{ node_id := node_id,
       finding_type := FindingType.informationDisclosure,
       severity := Severity.low,
       title := "Server Error - ".data ++ natToChars result.status_code,
       description := "Server returned error code ".data ++ natToChars result.status_code ++
         " for ".data ++ result.url ++ ". Error pages may leak sensitive information.".data,
       impact := some ("Server errors may expose stack traces, file paths, or other sensitive system information.".data),
       remediation := some ("Configure custom error pages that don\x27t reveal system details.".data),
       evidence := some ("\x7b\"url\": \"".data ++ result.url ++ "\", \"status_code\": ".data ++
         natToChars result.status_code ++ "\x7d".data),
       cwe_id := some "CWE-209".data,
       owasp_category := some "A05:2021 - Security Misconfiguration".data }]
  else []

/-- Model of `security.rs::analyze_crawl_result`: the three enabled
passive checks in source order (`check_security_headers` is commented
out in the source and so not part of the composition). -/
def analyze_crawl_result (result : CrawlResult) (node_id : Int) : List Finding :=
  check_insecure_transport result node_id ++ check_interesting_files result node_id ++
    check_error_messages result node_id

/-- A placeholder finding used only to read entries out of a list. -/
def emptyFinding : Finding :=
  { node_id := 0, finding_type := FindingType.other, severity := Severity.info,
    title := [], description := [], impact := none, remediation := none,
    evidence := none, cwe_id := none, owasp_category := none }

/-- C3: on `CrawlResult{url: "http://x/.env", status: 200}` the composed
analyzer returns exactly two findings: an `InsecureTransport` finding of
medium severity, and an `InterestingFile` finding of critical severity
whose title contains "Environment" and whose CWE is CWE-200. -/
theorem analyze_crawl_result_env :
    (analyze_crawl_result
        { url := "http://x/.env".data, status_code := 200, content_type := none,
          content_length := none, response_time_ms := 0, links_found := [],
          forms_found := 0, scripts_found := 0, error := none } 1).length = 2 ∧
      ((analyze_crawl_result
        { url := "http://x/.env".data, status_code := 200, content_type := none,
          content_length := none, response_time_ms := 0, links_found := [],
          forms_found := 0, scripts_found := 0, error := none } 1).getD 0
            emptyFinding).finding_type = FindingType.insecureTransport ∧
      ((analyze_crawl_result
        { url := "http://x/.env".data, status_code := 200, content_type := none,
          content_length := none, response_time_ms := 0, links_found := [],
          forms_found := 0, scripts_found := 0, error := none } 1).getD 0
            emptyFinding).severity = Severity.medium ∧
      ((analyze_crawl_result
        { url := "http://x/.env".data, status_code := 200, content_type := none,
          content_length := none, response_time_ms := 0, links_found := [],
          forms_found := 0, scripts_found := 0, error := none } 1).getD 1
            emptyFinding).finding_type = FindingType.interestingFile ∧
      ((analyze_crawl_result
        { url := "http://x/.env".data, status_code := 200, content_type := none,
          content_length := none, response_time_ms := 0, links_found := [],
          forms_found := 0, scripts_found := 0, error := none } 1).getD 1
            emptyFinding).severity = Severity.critical ∧
      strContains ((analyze_crawl_result
        { url := "http://x/.env".data, status_code := 200, content_type := none,
          content_length := none, response_time_ms := 0, links_found := [],
          forms_found := 0, scripts_found := 0, error := none } 1).getD 1
            emptyFinding).title "Environment".data = true ∧
      ((analyze_crawl_result
        { url := "http://x/.env".data, status_code := 200, content_type := none,
          content_length := none, response_time_ms := 0, links_found := [],
          forms_found := 0, scripts_found := 0, error := none } 1).getD 1
            emptyFinding).cwe_id = some "CWE-200".data := by
  decide

/-! ## Crawler worker loop (`crawler.rs::Crawler::crawl`)

The worker pool is modelled as a transition system: the state carries
the per-worker FIFO queues of `(url, depth)` items, the shared visited
set and the shared results list (a result is recorded as the fetched
URL paired with the depth of the item that produced it — the depth is
the ghost the spec calls "depth (if tracked)").  A scheduler (an
arbitrary list of worker indices) picks which worker runs its loop body
next; one step is one iteration of the `loop` in `Crawler::crawl`
(pop own front, depth check, fetch, push result, distribute links
round-robin under the `visited` lock).  The network is an oracle
`Str → Option (List Str)`: `none` is a fetch error, `some links` is a
successful response whose extracted, already-admitted links are
`links`.  Safety properties proved over every scheduler hold for every
interleaving of the real worker tasks, because each lock-protected
compound operation of the source is one atomic step here and the
remaining operations commute with respect to the stated invariants.
-/

structure CrawlState where
  queues : List (List (Str × Nat))
  visited : List Str
  results : List (Str × Nat)
  deriving Repr, DecidableEq

/-- The link-distribution loop of the `Ok` branch: for each new URL,
under the `visited` lock insert-if-absent, and if inserted push
`(url, depth+1)` onto the round-robin target worker's queue. -/
def enqueueLinks (depth : Nat) (links : List Str)
    (queues : List (List (Str × Nat))) (visited : List Str) (target : Nat) :
    List (List (Str × Nat)) × List Str :=
  match links with
  | [] => (queues, visited)
  | link :: rest =>
    if link ∈ visited then enqueueLinks depth rest queues visited target
    else
      enqueueLinks depth rest
        (queues.set target (queues.getD target [] ++ [(link, depth + 1)]))
        (link :: visited)
        ((target + 1) % queues.length)

/-- One iteration of worker `w`'s loop: pop the front of its own queue
(no stealing in crawl mode); discard if `depth ≥ max_depth`; otherwise
fetch; on error skip; on success append the result and distribute the
new links. -/
def crawlStep (net : Str → Option (List Str)) (maxDepth : Nat)
    (st : CrawlState) (w : Nat) : CrawlState :=
  match st.queues.getD w [] with
  | [] => st
  | (url, depth) :: rest =>
    let queues1 := st.queues.set w rest
    if maxDepth ≤ depth then { st with queues := queues1 }
    else
      match net url with
      | none => { st with queues := queues1 }
      | some links =>
        let qv := enqueueLinks depth links queues1 st.visited 0
        { queues := qv.1, visited := qv.2, results := st.results ++ [(url, depth)] }

/-- A whole crawl under a given scheduler. -/
def crawlRun (net : Str → Option (List Str)) (maxDepth : Nat)
    (sched : List Nat) (st : CrawlState) : CrawlState :=
  sched.foldl (crawlStep net maxDepth) st

inductive MScanError
  | invalidUrl (msg : Str)
  | other (msg : Str)
  deriving Repr, DecidableEq

/-- The fields of the `Crawler` struct that survive across `crawl`
calls on the same instance: the shared visited set and results list. -/
structure CrawlPersist where
  visited : List Str
  results : List (Str × Nat)
  deriving Repr, DecidableEq

/-- Model of `Crawler::crawl`: fail with `InvalidUrl` if the seed does
not parse; otherwise mark the seed visited, give it to worker 0 at
depth 0, run the workers, and return a clone of the (accumulated)
results list. -/
def Crawler.crawl (net : Str → Option (List Str)) (maxDepth workers : Nat)
    (sched : List Nat) (p : CrawlPersist) (start_url : Str) :
    Except MScanError (CrawlPersist × List (Str × Nat)) :=
  match parseUrl start_url with
  | none => .error (.invalidUrl start_url)
  | some _ =>
    let visited0 := if start_url ∈ p.visited then p.visited else start_url :: p.visited
    let st0 : CrawlState :=
      { queues := (List.replicate workers []).set 0 [(start_url, 0)],
        visited := visited0, results := p.results }
    let stF := crawlRun net maxDepth sched st0
    .ok ({ visited := stF.visited, results := stF.results }, stF.results)

/-- Model of `crawl.rs::execute_crawl`: one `Crawler` instance, one
`crawl` call per seed URL; each returned result list is appended to
`all_results`; a failed seed is only reported and skipped. -/
def execute_crawl (net : Str → Option (List Str)) (maxDepth workers : Nat)
    (sched : List Nat) (urls : List Str) : List (Str × Nat) :=
  (urls.foldl (fun acc url_str =>
    match Crawler.crawl net maxDepth workers sched acc.1 url_str with
    | .ok pr => (pr.1, acc.2 ++ pr.2)
    | .error _ => acc)
    (({ visited := [], results := [] } : CrawlPersist), ([] : List (Str × Nat)))).2

/-- Every result present after a step was either already present or was
produced by an item below the depth limit whose fetch succeeded. -/
theorem crawlStep_results (net : Str → Option (List Str)) (maxDepth : Nat)
    (st : CrawlState) (w : Nat) :
    ∀ x ∈ (crawlStep net maxDepth st w).results,
      x ∈ st.results ∨ (x.2 < maxDepth ∧ (net x.1).isSome = true) := by
  intro x hx
  unfold crawlStep at hx
  split at hx
  · exact Or.inl hx
  · rename_i url depth rest hq
    split at hx
    · exact Or.inl hx
    · rename_i hdep
      split at hx
      · exact Or.inl hx
      · rename_i links hnet
        dsimp only at hx
        rcases List.mem_append.mp hx with hx | hx
        · exact Or.inl hx
        · simp only [List.mem_singleton] at hx
          subst hx
          exact Or.inr ⟨by omega, by rw [hnet]; rfl⟩

/-- Invariants of the results list survive a whole run, provided they
hold of every result an in-bounds successful fetch can produce. -/
theorem crawlRun_inv (net : Str → Option (List Str)) (maxDepth : Nat)
    (P : Str × Nat → Prop)
    (hP : ∀ x, x.2 < maxDepth → (net x.1).isSome = true → P x) :
    ∀ (sched : List Nat) (st : CrawlState), (∀ x ∈ st.results, P x) →
      ∀ x ∈ (crawlRun net maxDepth sched st).results, P x := by
  intro sched
  induction sched with
  | nil => intro st h; exact h
  | cons w ws ih =>
    intro st h
    refine ih (crawlStep net maxDepth st w) ?_
    intro x hx
    rcases crawlStep_results net maxDepth st w x hx with hx | hx
    · exact h x hx
    · exact hP x hx.1 hx.2

/-- C4: a dequeued item whose depth has reached `max_depth` is discarded
without being fetched — for every network behaviour the step only
removes the item — and every result of a completed crawl was produced
at depth ≤ `max_depth`; with `max_depth = 0` a crawl on a fresh crawler
returns no result at all, so even the seed is never fetched. -/
theorem crawl_depth_limit :
    (∀ (net : Str → Option (List Str)) (maxDepth : Nat) (st : CrawlState) (w : Nat)
        (url : Str) (depth : Nat) (rest : List (Str × Nat)),
      st.queues.getD w [] = (url, depth) :: rest → maxDepth ≤ depth →
        crawlStep net maxDepth st w = { st with queues := st.queues.set w rest }) ∧
    (∀ (net : Str → Option (List Str)) (maxDepth workers : Nat) (sched : List Nat)
        (p : CrawlPersist) (start_url : Str) (pOut : CrawlPersist) (res : List (Str × Nat)),
      (∀ x ∈ p.results, x.2 ≤ maxDepth) →
      Crawler.crawl net maxDepth workers sched p start_url = .ok (pOut, res) →
        (∀ x ∈ res, x.2 ≤ maxDepth) ∧ (maxDepth = 0 → p.results = [] → res = [])) := by
  constructor
  · intro net maxDepth st w url depth rest hq hdep
    unfold crawlStep
    rw [hq]
    dsimp only
    rw [if_pos hdep]
  · intro net maxDepth workers sched p start_url pOut res hres hcrawl
    unfold Crawler.crawl at hcrawl
    split at hcrawl
    · exact absurd hcrawl (by simp)
    · dsimp only at hcrawl
      simp only [Except.ok.injEq, Prod.mk.injEq] at hcrawl
      obtain ⟨-, h2⟩ := hcrawl
      subst h2
      constructor
      · exact crawlRun_inv net maxDepth (fun x => x.2 ≤ maxDepth)
          (fun x h1 _ => Nat.le_of_lt h1) sched _ hres
      · intro h0 hnil
        have hlt := crawlRun_inv net maxDepth (fun x => x.2 < maxDepth)
          (fun x h1 _ => h1) sched
          { queues := (List.replicate workers []).set 0 [(start_url, 0)],
            visited := if start_url ∈ p.visited then p.visited else start_url :: p.visited,
            results := p.results }
          (fun x hx => absurd (hnil ▸ hx) (List.not_mem_nil x))
        cases hr : (crawlRun net maxDepth sched
            { queues := (List.replicate workers []).set 0 [(start_url, 0)],
              visited := if start_url ∈ p.visited then p.visited else start_url :: p.visited,
              results := p.results }).results with
        | nil => rfl
        | cons y t =>
          exfalso
          have := hlt y (by rw [hr]; exact List.mem_cons_self y t)
          omega

/-- Witness for C4: a one-worker crawl of one URL at `max_depth = 1`
returns exactly the seed's result, at depth 0 ≤ 1. -/
theorem crawl_depth_limit_witness :
    Crawler.crawl (fun _ => some []) 1 1 [0] ⟨[], []⟩ "http://a/".data =
        Except.ok (⟨["http://a/".data], [("http://a/".data, 0)]⟩,
          [("http://a/".data, 0)]) ∧
      ("http://a/".data, 0).2 ≤ 1 :=
  ⟨rfl,
    (crawl_depth_limit.2 (fun _ => some []) 1 1 [0] ⟨[], []⟩ "http://a/".data
        ⟨["http://a/".data], [("http://a/".data, 0)]⟩ [("http://a/".data, 0)]
        (by simp) rfl).1 ("http://a/".data, 0) (by decide)⟩

/-- C9: `Crawler::crawl` fails exactly when the seed URL does not parse,
and the failure is `InvalidUrl`; when the seed parses, a URL whose fetch
errors is only logged and skipped — the step removes the item, appends
no result and enqueues no link, for every scheduler the crawl carries on
and every result it ever holds comes from a successful fetch. -/
theorem crawl_error_semantics :
    (∀ (net : Str → Option (List Str)) (maxDepth workers : Nat) (sched : List Nat)
        (p : CrawlPersist) (start_url : Str),
      (∃ m, Crawler.crawl net maxDepth workers sched p start_url =
          .error (.invalidUrl m)) ↔ parseUrl start_url = none) ∧
    (∀ (net : Str → Option (List Str)) (maxDepth workers : Nat) (sched : List Nat)
        (p : CrawlPersist) (start_url : Str) (e : MScanError),
      Crawler.crawl net maxDepth workers sched p start_url = .error e →
        e = .invalidUrl start_url) ∧
    (∀ (net : Str → Option (List Str)) (maxDepth : Nat) (st : CrawlState) (w : Nat)
        (url : Str) (depth : Nat) (rest : List (Str × Nat)),
      st.queues.getD w [] = (url, depth) :: rest → depth < maxDepth → net url = none →
        crawlStep net maxDepth st w = { st with queues := st.queues.set w rest }) ∧
    (∀ (net : Str → Option (List Str)) (maxDepth : Nat) (sched : List Nat)
        (st : CrawlState),
      (∀ x ∈ st.results, (net x.1).isSome = true) →
        ∀ x ∈ (crawlRun net maxDepth sched st).results, (net x.1).isSome = true) := by
  refine ⟨?_, ?_, ?_, ?_⟩
  · intro net maxDepth workers sched p start_url
    constructor
    · rintro ⟨m, hm⟩
      cases hp : parseUrl start_url with
      | none => rfl
      | some v =>
        unfold Crawler.crawl at hm
        rw [hp] at hm
        exact absurd hm (by simp)
    · intro hp
      refine ⟨start_url, ?_⟩
      unfold Crawler.crawl
      rw [hp]
  · intro net maxDepth workers sched p start_url e he
    cases hp : parseUrl start_url with
    | none =>
      unfold Crawler.crawl at he
      rw [hp] at he
      simp only [Except.error.injEq] at he
      exact he.symm
    | some v =>
      unfold Crawler.crawl at he
      rw [hp] at he
      exact absurd he (by simp)
  · intro net maxDepth st w url depth rest hq hdep hnet
    unfold crawlStep
    rw [hq]
    dsimp only
    rw [if_neg (by omega), hnet]
  · exact fun net maxDepth sched st h =>
      crawlRun_inv net maxDepth (fun x => (net x.1).isSome = true)
        (fun x _ h2 => h2) sched st h

/-- Witness for C9: a worker whose only queued item fails to fetch pops
it and changes nothing else. -/
theorem crawl_error_semantics_witness :
    crawlStep (fun _ => none) 1
        (CrawlState.mk [[("http://e/".data, 0)]] ["http://e/".data] []) 0 =
      { CrawlState.mk [[("http://e/".data, 0)]] ["http://e/".data] [] with
          queues := (CrawlState.mk [[("http://e/".data, 0)]]
            ["http://e/".data] []).queues.set 0 [] } :=
  crawl_error_semantics.2.2.1 (fun _ => none) 1
    (CrawlState.mk [[("http://e/".data, 0)]] ["http://e/".data] []) 0
    "http://e/".data 0 [] (by decide) (by decide) rfl

/-- C2 (refuted as stated): with two seed URLs, `execute_crawl` returns
the first seed's result twice.  The `Crawler` keeps one shared results
list across its `crawl` calls, each call returns a clone of the whole
accumulated list, and `execute_crawl` extends `all_results` with every
returned clone — so the first host's results are duplicated. -/
theorem execute_crawl_duplicate_url :
    ((execute_crawl
        (fun u => if u = "http://a/".data ∨ u = "http://b/".data then some [] else none)
        3 1 [0, 0] ["http://a/".data, "http://b/".data]).map Prod.fst).count
      "http://a/".data = 2 := by
  decide

/-! ## Fuzzer worker pool (`fuzz.rs::execute_fuzz`)

Same modelling style as the crawler: per-worker FIFO queues of
`(url, source)` items, a shared `tested_urls` set and a shared results
list; a scheduler picks which worker runs one iteration of its loop
(pop own front, else steal from the back of the first non-empty peer
queue, request, record iff status < 500, and on a 200–399 hit expand
the canonicalised base into this worker's own queue).  The network
oracle returns `none` for a request error and the response data
otherwise. -/

inductive FuzzSource
  | initial | database | discovered
  deriving Repr, DecidableEq

/-- The response data `make_fuzz_request` reads off a completed response. -/
structure FuzzResponse where
  status_code : Nat
  content_length : Option Nat
  content_type : Option Str
  deriving Repr, DecidableEq

/-- Model of `fuzz.rs::FuzzResult`. -/
structure FuzzResult where
  url : Str
  status_code : Nat
  content_length : Option Nat
  content_type : Option Str
  source : FuzzSource
  deriving Repr, DecidableEq

/-- Model of `fuzz.rs::make_fuzz_request`: build a `FuzzResult` from the
response (the source is `Initial` here and overwritten by the caller). -/
def make_fuzz_request (net : Str → Option FuzzResponse) (url : Str) : Option FuzzResult :=
  (net url).map fun r =>
    { url := url, status_code := r.status_code, content_length := r.content_length,
      content_type := r.content_type, source := FuzzSource.initial }

structure FuzzState where
  queues : List (List (Str × FuzzSource))
  tested_urls : List Str
  results : List FuzzResult
  deriving Repr, DecidableEq

/-- Model of `fuzz.rs::try_steal_fuzz_work`: walk the worker indices in
order, skip oneself, and pop the back of the first non-empty queue. -/
def try_steal_fuzz_work (worker_id : Nat) (queues : List (List (Str × FuzzSource))) :
    List Nat → Option ((Str × FuzzSource) × List (List (Str × FuzzSource)))
  | [] => none
  | t :: ts =>
    if t = worker_id then try_steal_fuzz_work worker_id queues ts
    else
      match (queues.getD t []).getLast? with
      | some item => some (item, queues.set t (queues.getD t []).dropLast)
      | none => try_steal_fuzz_work worker_id queues ts

/-- One iteration of fuzz worker `w`'s loop. -/
def fuzzStep (net : Str → Option FuzzResponse) (wordlist : List Str)
    (st : FuzzState) (w : Nat) : FuzzState :=
  let popped : Option ((Str × FuzzSource) × List (List (Str × FuzzSource))) :=
    match st.queues.getD w [] with
    | item :: rest => some (item, st.queues.set w rest)
    | [] => try_steal_fuzz_work w st.queues (List.range st.queues.length)
  match popped with
  | none => st
  | some ((url, source), queues1) =>
    match make_fuzz_request net url with
    | none => { st with queues := queues1 }
    | some r0 =>
      let result : FuzzResult := { r0 with source := source }
      let results1 := if result.status_code < 500 then st.results ++ [result] else st.results
      if 200 ≤ result.status_code ∧ result.status_code < 400 then
        match extract_base_url result.url with
        | none => { queues := queues1, tested_urls := st.tested_urls, results := results1 }
        | some base_url =>
          if base_url ∈ st.tested_urls then
            { queues := queues1, tested_urls := st.tested_urls, results := results1 }
          else
            { queues := queues1.set w (queues1.getD w [] ++
                (wordlist.filterMap fun word => (build_test_url base_url word).map
                  fun new_url => (new_url, FuzzSource.discovered))),
              tested_urls := base_url :: st.tested_urls, results := results1 }
      else { queues := queues1, tested_urls := st.tested_urls, results := results1 }

/-- A whole fuzz run under a given scheduler. -/
def fuzzRun (net : Str → Option FuzzResponse) (wordlist : List Str)
    (sched : List Nat) (st : FuzzState) : FuzzState :=
  sched.foldl (fuzzStep net wordlist) st

/-- The initial base list of `execute_fuzz`: database URLs are pushed
first, command-line URLs after them (the source's lines 83–91). -/
def base_urls_with_source (db_endpoints base_urls : List Str) : List (Str × FuzzSource) :=
  db_endpoints.map (fun u => (u, FuzzSource.database)) ++
    base_urls.map (fun u => (u, FuzzSource.initial))

/-- The inner wordlist loop of the initial URL construction; the `?` of
`build_test_url(...)?` aborts the whole fuzz on a bad base. -/
def buildWords (base : Str) (source : FuzzSource) : List Str → Option (List (Str × FuzzSource))
  | [] => some []
  | word :: ws =>
    match build_test_url base word, buildWords base source ws with
    | some u, some us => some ((u, source) :: us)
    | _, _ => none

/-- The initial `(base, word)` product in test order (source lines 94–100). -/
def urls_to_test (wordlist : List Str) :
    List (Str × FuzzSource) → Option (List (Str × FuzzSource))
  | [] => some []
  | (base, source) :: rest =>
    match buildWords base source wordlist, urls_to_test wordlist rest with
    | some us, some rs => some (us ++ rs)
    | _, _ => none

/-- The round-robin distribution of the initial URLs: item `idx` goes to
the back of queue `idx % threads` (source lines 132–139). -/
def distributeFuzz (threads : Nat) : List (Str × FuzzSource) → Nat →
    List (List (Str × FuzzSource)) → List (List (Str × FuzzSource))
  | [], _, qs => qs
  | item :: rest, idx, qs =>
    distributeFuzz threads rest (idx + 1)
      (qs.set (idx % threads) (qs.getD (idx % threads) [] ++ [item]))

/-- The state `execute_fuzz` sets up before spawning the workers. -/
def fuzzInit (db_endpoints base_urls wordlist : List Str) (threads : Nat) :
    Option FuzzState :=
  (urls_to_test wordlist (base_urls_with_source db_endpoints base_urls)).map fun items =>
    { queues := distributeFuzz threads items 0 (List.replicate threads []),
      tested_urls := [], results := [] }

/-- Any result present after a fuzz step was already present or has a
status below 500. -/
theorem fuzzStep_results_lt (net : Str → Option FuzzResponse) (wordlist : List Str)
    (st : FuzzState) (w : Nat) :
    ∀ r ∈ (fuzzStep net wordlist st w).results,
      r ∈ st.results ∨ r.status_code < 500 := by
  intro r hr
  simp only [fuzzStep] at hr
  split at hr
  · exact Or.inl hr
  · rename_i item url source queues1 heq
    split at hr
    · exact Or.inl hr
    · rename_i r0 hreq
      split at hr
      · split at hr
        · dsimp only at hr
          split at hr
          · rename_i h500
            rcases List.mem_append.mp hr with hx | hx
            · exact Or.inl hx
            · simp only [List.mem_singleton] at hx
              subst hx
              exact Or.inr h500
          · exact Or.inl hr
        · split at hr
          · dsimp only at hr
            split at hr
            · rename_i h500
              rcases List.mem_append.mp hr with hx | hx
              · exact Or.inl hx
              · simp only [List.mem_singleton] at hx
                subst hx
                exact Or.inr h500
            · exact Or.inl hr
          · dsimp only at hr
            split at hr
            · rename_i h500
              rcases List.mem_append.mp hr with hx | hx
              · exact Or.inl hx
              · simp only [List.mem_singleton] at hx
                subst hx
                exact Or.inr h500
            · exact Or.inl hr
      · dsimp only at hr
        split at hr
        · rename_i h500
          rcases List.mem_append.mp hr with hx | hx
          · exact Or.inl hx
          · simp only [List.mem_singleton] at hx
            subst hx
            exact Or.inr h500
        · exact Or.inl hr

/-- The below-500 invariant survives a whole fuzz run. -/
theorem fuzzRun_lt (net : Str → Option FuzzResponse) (wordlist : List Str) :
    ∀ (sched : List Nat) (st : FuzzState),
      (∀ r ∈ st.results, r.status_code < 500) →
      ∀ r ∈ (fuzzRun net wordlist sched st).results, r.status_code < 500 := by
  intro sched
  induction sched with
  | nil => intro st h; exact h
  | cons w ws ih =>
    intro st h
    refine ih (fuzzStep net wordlist st w) ?_
    intro r hr
    rcases fuzzStep_results_lt net wordlist st w r hr with hx | hx
    · exact h r hx
    · exact hx

/-- C6: when a worker's request completes with a response, the result is
appended to the shared results list exactly when the status is below
500; consequently every `FuzzResult` in the list of any run started
from `execute_fuzz`'s initial distribution has `status_code < 500`. -/
theorem fuzz_records_iff_below_500 :
    (∀ (net : Str → Option FuzzResponse) (wordlist : List Str) (st : FuzzState) (w : Nat)
        (url : Str) (source : FuzzSource) (rest : List (Str × FuzzSource)) (r : FuzzResponse),
      st.queues.getD w [] = (url, source) :: rest → net url = some r →
        (r.status_code < 500 →
          (fuzzStep net wordlist st w).results = st.results ++
            [{ url := url, status_code := r.status_code, content_length := r.content_length,
               content_type := r.content_type, source := source }]) ∧
        (500 ≤ r.status_code → (fuzzStep net wordlist st w).results = st.results)) ∧
    (∀ (net : Str → Option FuzzResponse) (wordlist : List Str) (sched : List Nat)
        (db_endpoints base_urls : List Str) (threads : Nat) (st0 : FuzzState),
      fuzzInit db_endpoints base_urls wordlist threads = some st0 →
        ∀ r ∈ (fuzzRun net wordlist sched st0).results, r.status_code < 500) := by
  constructor
  · intro net wordlist st w url source rest r hq hnet
    have hres : (fuzzStep net wordlist st w).results =
        if r.status_code < 500 then st.results ++
          [{ url := url, status_code := r.status_code, content_length := r.content_length,
             content_type := r.content_type, source := source }]
        else st.results := by
      simp only [fuzzStep, hq]
      simp only [make_fuzz_request, hnet, Option.map_some']
      split
      · split
        · rfl
        · split
          · rfl
          · rfl
      · rfl
    constructor
    · intro h500
      rw [hres, if_pos h500]
    · intro h500
      rw [hres, if_neg (by omega)]
  · intro net wordlist sched db_endpoints base_urls threads st0 hinit
    unfold fuzzInit at hinit
    cases hu : urls_to_test wordlist (base_urls_with_source db_endpoints base_urls) with
    | none => rw [hu] at hinit; exact absurd hinit (by simp)
    | some items =>
      rw [hu] at hinit
      simp only [Option.map_some', Option.some.injEq] at hinit
      subst hinit
      exact fuzzRun_lt net wordlist sched _ (fun r hr => absurd hr (List.not_mem_nil r))

/-- Witness for C6: a 404 response is recorded. -/
theorem fuzz_records_iff_below_500_witness :
    (404 : Nat) < 500 ∧
      (fuzzStep (fun _ => some ⟨404, none, none⟩) ["w".data]
          (FuzzState.mk [[("http://a/w".data, FuzzSource.initial)]] [] []) 0).results =
        [{ url := "http://a/w".data, status_code := 404, content_length := none,
           content_type := none, source := FuzzSource.initial }] :=
  ⟨by decide, (fuzz_records_iff_below_500.1 (fun _ => some ⟨404, none, none⟩) ["w".data]
      (FuzzState.mk [[("http://a/w".data, FuzzSource.initial)]] [] []) 0
      "http://a/w".data FuzzSource.initial [] ⟨404, none, none⟩ rfl rfl).1 (by decide)⟩

/-- C1 (refuted as stated): with one database endpoint and one
command-line base, the single worker's initial queue holds the
database-derived test URL in front of the command-line one, and the
first processed item — workers pop the front of their queue — records
the database-derived URL.  Store-derived bases therefore run before
user-supplied bases, contrary to the claim (and to the source's own
comment that workers take from the end of the queue). -/
theorem fuzz_initial_order_database_first :
    fuzzInit ["http://db/".data] ["http://cli/".data] ["w".data] 1 =
      some { queues := [[("http://db/w".data, FuzzSource.database),
                         ("http://cli/w".data, FuzzSource.initial)]],
             tested_urls := [], results := [] } ∧
      (fuzzStep (fun _ => some ⟨404, none, none⟩) ["w".data]
          { queues := [[("http://db/w".data, FuzzSource.database),
                        ("http://cli/w".data, FuzzSource.initial)]],
            tested_urls := [], results := [] } 0).results =
        [{ url := "http://db/w".data, status_code := 404, content_length := none,
           content_type := none, source := FuzzSource.database }] :=
  ⟨by decide, by decide⟩

/-! ## Prompt-mode cross-domain admission (`crawl.rs`, `FollowMode::Prompt`)

The `Prompt` closure of `execute_crawl` runs its whole body — the
cache lookup, the interactive prompt and the cache update — while
holding the `domain_decisions` `StdMutex`, so concurrent invocations
from the workers are serialised; a scan's admission queries are
therefore modelled as a sequential fold over the query sequence.  The
`oracle` is the user's y/N answer per domain; `hasPb` says whether a
progress bar exists (without one — TUI mode — the closure denies
without prompting).  Each call returns its answer, the new decision
sets, and the list of domains for which the oracle was consulted. -/

/-- The memoising `(approved, denied)` pair of domain sets. -/
structure DomainDecisions where
  approved : List Str
  denied : List Str
  deriving Repr, DecidableEq

/-- Domain of a URL as the callback computes it: the parsed host, or
`"unknown"` when the URL does not parse. -/
def domainOf (url : Str) : Str :=
  match parseUrl url with
  | some u => u.host
  | none => "unknown".data

/-- Model of the `FollowMode::Prompt` admission closure. -/
def promptCallback (oracle : Str → Bool) (hasPb : Bool)
    (st : DomainDecisions) (url : Str) : Bool × DomainDecisions × List Str :=
  let domain := domainOf url
  if domain ∈ st.approved then (true, st, [])
  else if domain ∈ st.denied then (false, st, [])
  else
    let result := if hasPb then oracle domain else false
    let pr := if hasPb then [domain] else []
    if result then (true, { st with approved := domain :: st.approved }, pr)
    else (false, { st with denied := domain :: st.denied }, pr)

/-- A sequence of admission queries processed under the lock; returns
the final decision sets and the concatenated prompt trace. -/
def promptRun (oracle : Str → Bool) (hasPb : Bool) :
    List Str → DomainDecisions → DomainDecisions × List Str
  | [], st => (st, [])
  | url :: urls, st =>
    let step := promptCallback oracle hasPb st url
    let rest := promptRun oracle hasPb urls step.2.1
    (rest.1, step.2.2 ++ rest.2)

/-- Behaviour of one admission call: it prompts only for a domain that
is in neither set, it leaves the queried domain decided, and it only
ever grows the decision sets. -/
theorem promptCallback_spec (oracle : Str → Bool) (hasPb : Bool)
    (st : DomainDecisions) (url : Str) :
    ((promptCallback oracle hasPb st url).2.2 = [] ∨
      ((promptCallback oracle hasPb st url).2.2 = [domainOf url] ∧
        domainOf url ∉ st.approved ∧ domainOf url ∉ st.denied)) ∧
    (domainOf url ∈ (promptCallback oracle hasPb st url).2.1.approved ∨
      domainOf url ∈ (promptCallback oracle hasPb st url).2.1.denied) ∧
    (∀ d, d ∈ st.approved → d ∈ (promptCallback oracle hasPb st url).2.1.approved) ∧
    (∀ d, d ∈ st.denied → d ∈ (promptCallback oracle hasPb st url).2.1.denied) ∧
    ((domainOf url ∈ st.approved ∨ domainOf url ∈ st.denied) →
      (promptCallback oracle hasPb st url).2.2 = []) := by
  by_cases ha : domainOf url ∈ st.approved
  · have he : promptCallback oracle hasPb st url = (true, st, []) := by
      unfold promptCallback
      dsimp only
      rw [if_pos ha]
    rw [he]
    exact ⟨Or.inl rfl, Or.inl ha, fun d h => h, fun d h => h, fun _ => rfl⟩
  · by_cases hd : domainOf url ∈ st.denied
    · have he : promptCallback oracle hasPb st url = (false, st, []) := by
        unfold promptCallback
        dsimp only
        rw [if_neg ha, if_pos hd]
      rw [he]
      exact ⟨Or.inl rfl, Or.inr hd, fun d h => h, fun d h => h, fun _ => rfl⟩
    · by_cases hr : (if hasPb then oracle (domainOf url) else false) = true
      · have he : promptCallback oracle hasPb st url =
            (true, { st with approved := domainOf url :: st.approved },
              if hasPb then [domainOf url] else []) := by
          unfold promptCallback
          dsimp only
          rw [if_neg ha, if_neg hd, if_pos hr]
        rw [he]
        refine ⟨?_, Or.inl (List.mem_cons_self _ _),
          fun d h => List.mem_cons_of_mem _ h, fun d h => h, ?_⟩
        · cases hasPb with
          | true => exact Or.inr ⟨rfl, ha, hd⟩
          | false => exact Or.inl rfl
        · intro hc
          rcases hc with hc | hc
          · exact absurd hc ha
          · exact absurd hc hd
      · have he : promptCallback oracle hasPb st url =
            (false, { st with denied := domainOf url :: st.denied },
              if hasPb then [domainOf url] else []) := by
          unfold promptCallback
          dsimp only
          rw [if_neg ha, if_neg hd, if_neg hr]
        rw [he]
        refine ⟨?_, Or.inr (List.mem_cons_self _ _),
          fun d h => h, fun d h => List.mem_cons_of_mem _ h, ?_⟩
        · cases hasPb with
          | true => exact Or.inr ⟨rfl, ha, hd⟩
          | false => exact Or.inl rfl
        · intro hc
          rcases hc with hc | hc
          · exact absurd hc ha
          · exact absurd hc hd

/-- A run started with a domain already decided never prompts for it. -/
theorem promptRun_decided_count (oracle : Str → Bool) (hasPb : Bool) (d : Str) :
    ∀ (urls : List Str) (st : DomainDecisions),
      (d ∈ st.approved ∨ d ∈ st.denied) →
      ((promptRun oracle hasPb urls st).2).count d = 0 := by
  intro urls
  induction urls with
  | nil => intro st _; rfl
  | cons url us ih =>
    intro st hst
    have hs := promptCallback_spec oracle hasPb st url
    simp only [promptRun, List.count_append]
    have hnext : d ∈ (promptCallback oracle hasPb st url).2.1.approved ∨
        d ∈ (promptCallback oracle hasPb st url).2.1.denied := by
      rcases hst with h | h
      · exact Or.inl (hs.2.2.1 d h)
      · exact Or.inr (hs.2.2.2.1 d h)
    rw [ih _ hnext]
    rcases hs.1 with hpr | hpr
    · rw [hpr]
      rfl
    · rw [hpr.1]
      have hne : ¬ d = domainOf url := by
        intro hh
        rcases hst with h | h
        · exact hpr.2.1 (hh ▸ h)
        · exact hpr.2.2 (hh ▸ h)
      have hcnt : List.count d [domainOf url] = 0 :=
        List.count_eq_zero.mpr (by simp [hne])
      rw [hcnt]

/-- Over any query sequence, a domain is prompted for at most once. -/
theorem promptRun_count_le_one (oracle : Str → Bool) (hasPb : Bool) (d : Str) :
    ∀ (urls : List Str) (st : DomainDecisions),
      ((promptRun oracle hasPb urls st).2).count d ≤ 1 := by
  intro urls
  induction urls with
  | nil => intro st; simp [promptRun]
  | cons url us ih =>
    intro st
    have hs := promptCallback_spec oracle hasPb st url
    simp only [promptRun, List.count_append]
    rcases hs.1 with hpr | hpr
    · rw [hpr]
      simpa using ih (promptCallback oracle hasPb st url).2.1
    · rw [hpr.1]
      by_cases he : d = domainOf url
      · subst he
        rw [promptRun_decided_count oracle hasPb (domainOf url) us _ hs.2.1]
        simp [List.count_singleton]
      · have hcnt : List.count d [domainOf url] = 0 :=
          List.count_eq_zero.mpr (by simp [he])
        rw [hcnt]
        simpa using ih (promptCallback oracle hasPb st url).2.1

/-- C5: in `Prompt` follow mode the admission decisions are memoised
under the exclusive lock held across the prompt: a domain already
approved (resp. denied) is answered from the cache with no prompt and
no state change, and across any whole-scan query sequence the external
oracle is consulted at most once per domain. -/
theorem prompt_memoizes_per_domain :
    (∀ (oracle : Str → Bool) (hasPb : Bool) (st : DomainDecisions) (url : Str),
      domainOf url ∈ st.approved →
        promptCallback oracle hasPb st url = (true, st, [])) ∧
    (∀ (oracle : Str → Bool) (hasPb : Bool) (st : DomainDecisions) (url : Str),
      domainOf url ∉ st.approved → domainOf url ∈ st.denied →
        promptCallback oracle hasPb st url = (false, st, [])) ∧
    (∀ (oracle : Str → Bool) (hasPb : Bool) (urls : List Str) (d : Str),
      ((promptRun oracle hasPb urls ⟨[], []⟩).2).count d ≤ 1) := by
  refine ⟨?_, ?_, ?_⟩
  · intro oracle hasPb st url ha
    unfold promptCallback
    dsimp only
    rw [if_pos ha]
  · intro oracle hasPb st url ha hd
    unfold promptCallback
    dsimp only
    rw [if_neg ha, if_pos hd]
  · intro oracle hasPb urls d
    exact promptRun_count_le_one oracle hasPb d urls ⟨[], []⟩

/-- Witness for C5: with `b.test` already approved, an admission query
for another `b.test` URL answers from the cache without prompting. -/
theorem prompt_memoizes_per_domain_witness :
    promptCallback (fun _ => false) true
        ⟨["b.test".data], []⟩ "http://b.test/x".data =
      (true, ⟨["b.test".data], []⟩, []) :=
  prompt_memoizes_per_domain.1 (fun _ => false) true ⟨["b.test".data], []⟩
    "http://b.test/x".data (by decide)

/-! ## Node persistence (`data.rs::Database::insert_node`) -/

/-- Model of `data.rs::ServiceType`. -/
inductive ServiceType
  | web | restApi | graphQL | soap | webSocket | staticContent | redirect
  deriving Repr, DecidableEq

/-- Model of `ServiceType::as_str`. -/
def ServiceType.as_str : ServiceType → Str
  | web => "web".data
  | restApi => "rest_api".data
  | graphQL => "graphql".data
  | soap => "soap".data
  | webSocket => "websocket".data
  | staticContent => "static".data
  | redirect => "redirect".data

/-- Model of `data.rs::CrawlNode` — note it carries neither a depth nor
a node-kind field. -/
structure CrawlNode where
  url : Str
  domain : Str
  status_code : Nat
  content_type : Option Str
  content_length : Option Nat
  response_time_ms : Option Nat
  title : Option Str
  forms_count : Nat
  service_type : Option ServiceType
  headers : Option Str
  body_sample : Option Str
  deriving Repr, DecidableEq

/-- The row `insert_node` binds into the `nodes` INSERT, column by
column in the statement's order. -/
structure NodeRow where
  map_id : Str
  url : Str
  domain : Str
  node_type : Str
  status : Str
  depth : Nat
  discovered_at : Int
  last_crawled : Option Int
  response_code : Nat
  response_time_ms : Option Nat
  content_type : Option Str
  content_length : Option Int
  title : Option Str
  forms_count : Int
  service_type : Option Str
  headers : Option Str
  body_sample : Option Str
  deriving Repr, DecidableEq

/-- Model of `Database::insert_node`: the parameters bound into the
INSERT (`timestamp` stands for `current_timestamp()`). -/
def Database.insert_node (map_id : Str) (node : CrawlNode) (timestamp : Int) : NodeRow :=
  { map_id := map_id, url := node.url, domain := node.domain,
    node_type := "endpoint".data, status := "crawled".data, depth := 0,
    discovered_at := timestamp, last_crawled := some timestamp,
    response_code := node.status_code, response_time_ms := node.response_time_ms,
    content_type := node.content_type,
    content_length := node.content_length.map (fun l => (l : Int)),
    title := node.title, forms_count := (node.forms_count : Int),
    service_type := node.service_type.map ServiceType.as_str,
    headers := node.headers, body_sample := node.body_sample }

/-- C10: `insert_node` stores every row with `node_type = "endpoint"`,
`status = "crawled"` and `depth = 0`, regardless of the node's URL,
kind or actual discovery depth — the `CrawlNode` input has no depth or
node-kind field, even though the schema defines `root_host`,
`external_host` and `api_endpoint` kinds and a per-node depth. -/
theorem insert_node_constant_kind_status_depth :
    ∀ (map_id : Str) (node : CrawlNode) (timestamp : Int),
      (Database.insert_node map_id node timestamp).node_type = "endpoint".data ∧
        (Database.insert_node map_id node timestamp).status = "crawled".data ∧
        (Database.insert_node map_id node timestamp).depth = 0 :=
  fun _ _ _ => ⟨rfl, rfl, rfl⟩
